import Mathlib

/-!
Verification of the bullet-item ordering engine, the soft-delete record
store and the cache-aside read path of the project/specification CRUD
backend.

The embedding is a direct translation of the Python source:

* `src/backend/app/database/operations.py` : generic CRUD helpers
  (`get_record`, `list_records`, `create_record`, `update_record`,
  `delete_record`) become pure functions over an explicit table state
  (a `List` of rows).  UUIDs are modelled as `Nat` (only equality and
  string conversion are used on them, and `str` is injective), and the
  wall clock (`datetime.utcnow`) is threaded as an explicit `now : Nat`
  parameter.
* `src/backend/app/services/bullet_item_service.py` : the service
  methods become state-passing functions returning the new table state
  together with an `Except` value; a raised exception is an `error`
  result and, mirroring the source, is produced before any write.
* `src/backend/app/services/project_service.py`,
  `specification_service.py`, `cache_service.py` and
  `app/cache/redis.py` : the Redis cache is modelled by the observable
  behaviour of one read (`hit`/`miss`/`failure`) plus whether a write
  would succeed; `RedisCache.get`/`set` raise `DatabaseError` on a
  backend failure and no caller on these paths catches it.
-/

deriving instance DecidableEq for Except

/-- Typed errors of `app/utils/exceptions.py`, carrying their error code.
`marshmallowError` stands for the schema-library validation error raised
by `schema.load`, which is a distinct exception type in the source. -/
inductive ServiceError where
  | validationError (code : String)
  | resourceNotFoundError (code : String)
  | authorizationError (code : String)
  | databaseError
  | marshmallowError
  deriving DecidableEq, Repr

/-- A row of the `bullet_items` table (`app/models/bullet_item.py` plus the
common columns of `app/models/base.py`). -/
structure BulletItem where
  id : Nat
  spec_id : Nat
  content : String
  order : Int
  created_at : Nat
  updated_at : Nat
  is_deleted : Bool
  deriving DecidableEq, Repr

/-- A row of the `specifications` table (`app/models/specification.py`). -/
structure Specification where
  id : Nat
  project_id : Nat
  content : String
  created_at : Nat
  updated_at : Nat
  is_deleted : Bool
  deriving DecidableEq, Repr

/-- A row of the `projects` table (`app/models/project.py`). -/
structure Project where
  id : Nat
  user_id : Nat
  title : String
  created_at : Nat
  updated_at : Nat
  is_deleted : Bool
  deriving DecidableEq, Repr

/-- The Python `str.strip()`: drop leading and trailing whitespace.  It is
defined over the character list so that concrete instances reduce inside
the kernel. -/
def pyStrip (s : String) : String :=
  ⟨((s.data.dropWhile Char.isWhitespace).reverse.dropWhile Char.isWhitespace).reverse⟩

/-- `Project.validate_ownership` from `app/models/project.py`. -/
def Project.validate_ownership (p : Project) (user_id : Nat) : Bool :=
  p.user_id == user_id

/-- `operations.get_record` instantiated at `BulletItem`: first row with the
given id whose `is_deleted` flag is false. -/
def get_record (db : List BulletItem) (record_id : Nat) : Option BulletItem :=
  db.find? (fun r => r.id == record_id && !r.is_deleted)

/-- `operations.get_record` instantiated at `Specification`. -/
def get_record_specification (db : List Specification) (record_id : Nat) :
    Option Specification :=
  db.find? (fun r => r.id == record_id && !r.is_deleted)

/-- `operations.get_record` instantiated at `Project`. -/
def get_record_project (db : List Project) (record_id : Nat) : Option Project :=
  db.find? (fun r => r.id == record_id && !r.is_deleted)

/-- `operations.list_records` instantiated at `BulletItem` with the filter
dict used by `BulletItemService` (`filters = spec_id`): rows that are not
soft-deleted and belong to the given specification. -/
def list_records (db : List BulletItem) (spec_id : Nat) : List BulletItem :=
  db.filter (fun r => !r.is_deleted && r.spec_id == spec_id)

/-- The raw row in the table with the given id, soft-deleted or not; this is
how the session-held, mutable ORM object of the source is located in the
explicit table state. -/
def findRow (db : List BulletItem) (i : Nat) : Option BulletItem :=
  db.find? (fun r => r.id == i)

/-- The tables keep pairwise-distinct primary keys, as the `id` column is
declared `primary_key` and `unique` in `app/models/base.py`. -/
def WellFormed (db : List BulletItem) : Prop :=
  (db.map (fun r => r.id)).Nodup

instance (db : List BulletItem) : Decidable (WellFormed db) :=
  List.nodupDecidable _

/-- Input to `BulletItemService.create_bullet_item` after JSON decoding. -/
structure CreateData where
  spec_id : Nat
  content : String
  order : Int
  deriving DecidableEq, Repr

/-- `BulletItemCreateSchema.load` (`app/schemas/bullet_item.py`): `content`
is validated through `validate_bullet_item(content, 0)` from
`app/utils/validators.py` (required non-empty, non-blank after strip, at
most 5000 characters after strip) and `order` must be an integer in
`[0, 9]`.  A failure raises the schema-library validation error. -/
def loadCreateSchema (d : CreateData) : Option ServiceError :=
  if d.content.data.isEmpty then some .marshmallowError
  else if (pyStrip d.content).data.isEmpty then some .marshmallowError
  else if 5000 < (pyStrip d.content).length then some .marshmallowError
  else if d.order < 0 then some .marshmallowError
  else if 9 < d.order then some .marshmallowError
  else none

/-- `operations.create_record` at `BulletItem`: `BulletItem.__init__`
re-validates content and order (raising `ValueError`, which
`create_record` wraps into `DatabaseError`), trims the content, stamps the
timestamps and appends the new row.  The fresh primary key `uuid4()` is
the explicit parameter `newId`. -/
def create_record (db : List BulletItem) (now newId : Nat) (d : CreateData) :
    List BulletItem × Except ServiceError BulletItem :=
  if (pyStrip d.content).data.isEmpty || d.order < 0 || 9 < d.order then
    (db, .error .databaseError)
  else
    let item : BulletItem :=
      { id := newId, spec_id := d.spec_id, content := pyStrip d.content,
        order := d.order, created_at := now, updated_at := now,
        is_deleted := false }
    (db ++ [item], .ok item)

/-- `BulletItemService.create_bullet_item`: load the create schema, count
the active items of the specification, reject with `ValidationError
ITEM001` when the count is already 10 or more, otherwise persist. -/
def create_bullet_item (db : List BulletItem) (now newId : Nat)
    (d : CreateData) : List BulletItem × Except ServiceError BulletItem :=
  match loadCreateSchema d with
  | some e => (db, .error e)
  | none =>
    let existing_items := list_records db d.spec_id
    if 10 ≤ existing_items.length then
      (db, .error (.validationError "ITEM001"))
    else
      create_record db now newId d

/-- `Base.soft_delete` applied through `operations.delete_record`: the row
with the id of the fetched record gets `is_deleted := true` and a fresh
`updated_at`; every other column and every other row is untouched. -/
def soft_delete (db : List BulletItem) (now i : Nat) : List BulletItem :=
  db.map (fun r =>
    if r.id == i then { r with is_deleted := true, updated_at := now } else r)

/-- `BulletItemService.delete_bullet_item`: fetch the active record (else
`ResourceNotFoundError ITEM001`), then soft-delete it. -/
def delete_bullet_item (db : List BulletItem) (now item_id : Nat) :
    List BulletItem × Except ServiceError Unit :=
  match get_record db item_id with
  | none => (db, .error (.resourceNotFoundError "ITEM001"))
  | some item => (soft_delete db now item.id, .ok ())

/-- Ascending insertion by the `order` column, used to model the
`items.sort(key = ...)` call of `list_specification_items`. -/
def insertByOrder (x : BulletItem) : List BulletItem → List BulletItem
  | [] => [x]
  | y :: ys => if x.order ≤ y.order then x :: y :: ys else y :: insertByOrder x ys

/-- Ascending sort by the `order` column. -/
def sortByOrder : List BulletItem → List BulletItem
  | [] => []
  | x :: xs => insertByOrder x (sortByOrder xs)

/-- `BulletItemService.list_specification_items`: the active items of the
specification, sorted ascending by `order`. -/
def list_specification_items (db : List BulletItem) (spec_id : Nat) :
    List BulletItem :=
  sortByOrder (list_records db spec_id)

/-- One element of the `order_updates` payload of
`BulletItemService.reorder_items`.  Both fields are read with
`dict.get`, so either may be absent. -/
structure ReorderEntry where
  id : Option Nat
  order : Option Int
  deriving DecidableEq, Repr

/-- The validation loop of `reorder_items`, run over the whole payload
before any write: a missing id or an id not among the active items of the
specification raises `ResourceNotFoundError ITEM001`; a missing,
non-integer or out-of-range order raises `ValidationError ITEM002`. -/
def firstError (ids : List Nat) : List ReorderEntry → Option ServiceError
  | [] => none
  | u :: rest =>
    match u.id with
    | none => some (.resourceNotFoundError "ITEM001")
    | some i =>
      if i ∈ ids then
        match u.order with
        | none => some (.validationError "ITEM002")
        | some o =>
          if o < 0 then some (.validationError "ITEM002")
          else if 9 < o then some (.validationError "ITEM002")
          else firstError ids rest
      else some (.resourceNotFoundError "ITEM001")

/-- A payload entry carries an id that denotes an active item of the
specification (the membership test of the validation loop). -/
def goodId (ids : List Nat) (u : ReorderEntry) : Bool :=
  match u.id with
  | some i => decide (i ∈ ids)
  | none => false

/-- A payload entry carries an integer order in the range 0 to 9 (the
range test of the validation loop). -/
def goodOrder (u : ReorderEntry) : Bool :=
  match u.order with
  | some o => decide (0 ≤ o) && decide (o ≤ 9)
  | none => false

/-- A payload entry that passes both tests of the validation loop. -/
def entryOk (ids : List Nat) (u : ReorderEntry) : Bool :=
  goodId ids u && goodOrder u

/-- The order carried by the last payload entry that names the given item,
if any. -/
def lastEntryOrder (i : Nat) : List ReorderEntry → Option Int
  | [] => none
  | u :: rest =>
    match lastEntryOrder i rest with
    | some o => some o
    | none =>
      match u.id, u.order with
      | some j, some o => if j == i then some o else none
      | _, _ => none

/-- Left fold computing the order the given item holds after the update
loop, starting from its current order. -/
def lastOrd (i : Nat) (us : List ReorderEntry) (dflt : Int) : Int :=
  us.foldl (fun acc u =>
    match u.id, u.order with
    | some j, some o => if j == i then o else acc
    | _, _ => acc) dflt

/-- `operations.update_record` restricted to the `order` patch used by the
reorder loop: the row with the given id gets the new order and a fresh
`updated_at` (the `onupdate` hook of `app/models/base.py`). -/
def updRow (now j : Nat) (o : Int) (r : BulletItem) : BulletItem :=
  if r.id == j then { r with order := o, updated_at := now } else r

/-- One pass of the update loop of `reorder_items`:
`update_record(item, order)` sets the `order` column of the item fetched
from `existing_map`.  Entries lacking an id or an order never reach this
loop, the validation loop having already raised. -/
def applyEntry (now : Nat) (db : List BulletItem) (u : ReorderEntry) :
    List BulletItem :=
  match u.id, u.order with
  | some i, some o => db.map (updRow now i o)
  | _, _ => db

/-- The update loop of `reorder_items`, in payload order. -/
def applyUpdates (now : Nat) (db : List BulletItem) (us : List ReorderEntry) :
    List BulletItem :=
  us.foldl (applyEntry now) db

/-- The keys of `existing_map`: ids of the active items of the
specification. -/
def activeIds (db : List BulletItem) (spec_id : Nat) : List Nat :=
  (list_records db spec_id).map (fun r => r.id)

/-- `BulletItemService.reorder_items`: list the active items of the
specification, validate every payload entry against them, then apply all
updates and return the updated items (each entry contributes the final
state of the item it names, as `updated_items` holds live references that
are serialized only after the loop). -/
def reorder_items (db : List BulletItem) (now spec_id : Nat)
    (order_updates : List ReorderEntry) :
    List BulletItem × Except ServiceError (List BulletItem) :=
  match firstError (activeIds db spec_id) order_updates with
  | some e => (db, .error e)
  | none =>
    let db2 := applyUpdates now db order_updates
    (db2, .ok (order_updates.filterMap (fun u => u.id.bind (findRow db2))))

/-- `SpecificationService.delete_specification`: fetch the active
specification (else `ResourceNotFoundError SPEC001`) and soft-delete it
via `operations.delete_record`.  No code path touches the `bullet_items`
table: `Base.soft_delete` flips the flag of the one row it is called on,
and the ORM cascade declared on the relationship fires only on a hard
`session.delete`, which is never used. -/
def delete_specification (sdb : List Specification) (idb : List BulletItem)
    (now spec_id : Nat) :
    (List Specification × List BulletItem) × Except ServiceError Unit :=
  match get_record_specification sdb spec_id with
  | none => ((sdb, idb), .error (.resourceNotFoundError "SPEC001"))
  | some s =>
    ((sdb.map (fun r =>
        if r.id == s.id then { r with is_deleted := true, updated_at := now } else r),
      idb), .ok ())

/-- Serialized form of a project (`ProjectSchema.dump`), as stored in the
cache: ids are serialized as strings, which `Nat` models faithfully since
`str` is injective on UUIDs. -/
structure ProjDict where
  id : Nat
  user_id : Nat
  title : String
  deriving DecidableEq, Repr

/-- `ProjectSchema.dump`. -/
def dumpProject (p : Project) : ProjDict :=
  { id := p.id, user_id := p.user_id, title := p.title }

/-- Serialized form of a specification (`SpecificationSchema.dump`). -/
structure SpecDict where
  id : Nat
  project_id : Nat
  content : String
  deriving DecidableEq, Repr

/-- `SpecificationSchema.dump`. -/
def dumpSpec (s : Specification) : SpecDict :=
  { id := s.id, project_id := s.project_id, content := s.content }

/-- Observable outcome of one `RedisCache.get` (`app/cache/redis.py`):
a deserialized non-empty payload (`hit v`; the service guards with a
truthiness check, and a cached JSON `null` tombstone also reads back as a
miss), an absent key (`miss`), or a backend failure, in which case
`RedisCache.get` raises `DatabaseError`. -/
inductive CacheResult (α : Type) where
  | hit (value : α)
  | miss
  | failure
  deriving DecidableEq, Repr

/-- The cache as seen by one request: the read outcome per key, and
whether a subsequent `set` succeeds (`RedisCache.set` also raises
`DatabaseError` on a backend failure). -/
structure CacheOf (α : Type) where
  get : Nat → CacheResult α
  setOk : Bool

/-- `ProjectService.get_project`: on a cache hit the ownership check is
re-derived from the `user_id` field of the cached payload; on a miss the
record is fetched from the store, checked through
`Project.validate_ownership`, dumped, written back to the cache and
returned.  The `DatabaseError` of a failing cache get or set propagates:
neither `CacheService.get_project` nor `ProjectService.get_project`
catches it. -/
def get_project (cache : CacheOf ProjDict) (db : List Project)
    (project_id user_id : Nat) : Except ServiceError ProjDict :=
  match cache.get project_id with
  | .failure => .error .databaseError
  | .hit cached =>
    if cached.user_id ≠ user_id then .error (.authorizationError "PRJ002")
    else .ok cached
  | .miss =>
    match get_record_project db project_id with
    | none => .error (.resourceNotFoundError "PRJ001")
    | some p =>
      if !(p.validate_ownership user_id) then .error (.authorizationError "PRJ002")
      else if cache.setOk then .ok (dumpProject p)
      else .error .databaseError

/-- `SpecificationService.get_specification`: cache-aside read with no
ownership check; any exception other than `ResourceNotFoundError`
(including the `DatabaseError` of a failing cache get or set) is
re-raised as `DatabaseError` by the blanket handler. -/
def get_specification (cache : CacheOf SpecDict) (db : List Specification)
    (spec_id : Nat) : Except ServiceError SpecDict :=
  match cache.get spec_id with
  | .failure => .error .databaseError
  | .hit cached => .ok cached
  | .miss =>
    match get_record_specification db spec_id with
    | none => .error (.resourceNotFoundError "SPEC001")
    | some s =>
      if cache.setOk then .ok (dumpSpec s)
      else .error .databaseError

/-- Number of active bullet items of a specification. -/
def activeCount (db : List BulletItem) (spec_id : Nat) : Nat :=
  (list_records db spec_id).length

/-- One operation of the create/delete interface of `BulletItemService`,
with the nondeterministic clock and fresh id made explicit. -/
inductive BulletOp where
  | createOp (now newId : Nat) (d : CreateData)
  | deleteOp (now : Nat) (item_id : Nat)

/-- The table state after one service call (a raised error leaves the
table as it was, every write happening after all validation). -/
def applyOp (db : List BulletItem) : BulletOp → List BulletItem
  | .createOp now newId d => (create_bullet_item db now newId d).1
  | .deleteOp now i => (delete_bullet_item db now i).1

/-- The table state after a sequence of create/delete calls. -/
def runOps (db : List BulletItem) (ops : List BulletOp) : List BulletItem :=
  ops.foldl applyOp db

example : activeCount [] 5 = 0 := rfl

example :
    (create_bullet_item [] 7 1 { spec_id := 5, content := " a ", order := 3 }).2 =
      .ok { id := 1, spec_id := 5, content := "a", order := 3,
            created_at := 7, updated_at := 7, is_deleted := false } := by
  decide

/-! ### Capacity invariant (C1, C2) -/

theorem list_records_append (db db2 : List BulletItem) (s : Nat) :
    list_records (db ++ db2) s = list_records db s ++ list_records db2 s := by
  simp [list_records, List.filter_append]

/-- Soft deletion never increases the active count of any specification. -/
theorem activeCount_soft_delete_le (db : List BulletItem) (now i s : Nat) :
    activeCount (soft_delete db now i) s ≤ activeCount db s := by
  unfold activeCount list_records soft_delete
  rw [← List.countP_eq_length_filter, ← List.countP_eq_length_filter,
    List.countP_map]
  refine List.countP_mono_left ?_
  intro r _ hr
  simp only [Function.comp] at hr
  by_cases hid : (r.id == i) = true
  · simp [hid] at hr
  · simpa [hid] using hr

/-- A successful create appends one active row of the requested
specification; it only succeeds when fewer than 10 active items exist. -/
theorem applyOp_bound (db : List BulletItem) (op : BulletOp)
    (h : ∀ s, activeCount db s ≤ 10) :
    ∀ s, activeCount (applyOp db op) s ≤ 10 := by
  intro s
  cases op with
  | deleteOp now i =>
    simp only [applyOp, delete_bullet_item]
    cases hg : get_record db i with
    | none => exact h s
    | some item =>
      exact Nat.le_trans (activeCount_soft_delete_le db now item.id s) (h s)
  | createOp now newId d =>
    simp only [applyOp, create_bullet_item]
    cases hS : loadCreateSchema d with
    | some e => exact h s
    | none =>
      simp only []
      by_cases hCap : 10 ≤ (list_records db d.spec_id).length
      · simp [hCap]
        exact h s
      · simp only [hCap, if_false, if_neg hCap, create_record]
        by_cases hInit :
            ((pyStrip d.content).data.isEmpty || d.order < 0 || 9 < d.order) = true
        · simp [hInit]
          exact h s
        · simp only [hInit, Bool.false_eq_true, if_false, if_neg]
          have hlen : activeCount db d.spec_id ≤ 9 := by
            unfold activeCount
            omega
          set item : BulletItem :=
            { id := newId, spec_id := d.spec_id, content := pyStrip d.content,
              order := d.order, created_at := now, updated_at := now,
              is_deleted := false } with hitem
          unfold activeCount
          rw [list_records_append, List.length_append]
          by_cases hs : (d.spec_id == s) = true
          · have hone : list_records [item] s = [item] := by
              simp [list_records, hitem, hs]
            rw [hone]
            have hds : d.spec_id = s := by simpa using hs
            have h9 := hlen
            unfold activeCount at h9
            rw [hds] at h9
            simp only [List.length_cons, List.length_nil]
            omega
          · have hnone : list_records [item] s = [] := by
              simp [list_records, hitem]
              intro heq
              exact absurd (by simpa using heq) (by simpa using hs)
            rw [hnone]
            simpa using h s

/-- C1: for every specification, the number of active bullet items never
exceeds 10 after any sequence of `create_bullet_item` and
`delete_bullet_item` calls, starting from a state satisfying the bound.
A create against a specification that already holds 10 active items is
rejected before any write, and deletion only removes items from the
active set. -/
theorem create_delete_preserves_capacity (ops : List BulletOp)
    (db : List BulletItem) (h : ∀ s, activeCount db s ≤ 10) :
    ∀ s, activeCount (runOps db ops) s ≤ 10 := by
  induction ops generalizing db with
  | nil => exact h
  | cons op rest ih =>
    have hstep := applyOp_bound db op h
    simpa [runOps, List.foldl_cons] using ih (applyOp db op) hstep

/-- Witness for C1 at the empty table and a two-operation history. -/
theorem create_delete_preserves_capacity_witness :
    (∀ s, activeCount ([] : List BulletItem) s ≤ 10) ∧
    (∀ s, activeCount (runOps []
      [BulletOp.createOp 1 1 { spec_id := 5, content := "a", order := 0 },
       BulletOp.deleteOp 2 1]) s ≤ 10) :=
  ⟨fun _ => Nat.zero_le 10,
   create_delete_preserves_capacity _ [] (fun _ => Nat.zero_le 10)⟩

/-! ### Reorder validation loop -/

theorem firstError_cons_ok (ids : List Nat) (u : ReorderEntry)
    (rest : List ReorderEntry) (i : Nat) (o : Int) (hid : u.id = some i)
    (hm : i ∈ ids) (ho : u.order = some o) (h0 : ¬ o < 0) (h9 : ¬ 9 < o) :
    firstError ids (u :: rest) = firstError ids rest := by
  simp [firstError, hid, hm, ho, h0, h9]

theorem firstError_none_iff (ids : List Nat) (us : List ReorderEntry) :
    firstError ids us = none ↔ ∀ u ∈ us, entryOk ids u = true := by
  induction us with
  | nil => simp [firstError]
  | cons u rest ih =>
    cases hid : u.id with
    | none =>
      constructor
      · intro h
        exfalso
        simp [firstError, hid] at h
      · intro hall
        exfalso
        have := hall u (by simp)
        simp [entryOk, goodId, hid] at this
    | some i =>
      by_cases hm : i ∈ ids
      · cases ho : u.order with
        | none =>
          constructor
          · intro h
            exfalso
            simp [firstError, hid, hm, ho] at h
          · intro hall
            exfalso
            have := hall u (by simp)
            simp [entryOk, goodOrder, ho] at this
        | some o =>
          by_cases h0 : o < 0
          · constructor
            · intro h
              exfalso
              simp [firstError, hid, hm, ho, h0] at h
            · intro hall
              exfalso
              have := hall u (by simp)
              simp [entryOk, goodId, goodOrder, hid, ho] at this
              obtain ⟨-, h1, -⟩ := this
              omega
          · by_cases h9 : 9 < o
            · constructor
              · intro h
                exfalso
                simp [firstError, hid, hm, ho, h0, h9] at h
              · intro hall
                exfalso
                have := hall u (by simp)
                simp [entryOk, goodId, goodOrder, hid, ho] at this
                obtain ⟨-, -, h2⟩ := this
                omega
            · rw [firstError_cons_ok ids u rest i o hid hm ho h0 h9, ih]
              constructor
              · intro hall v hv
                rcases List.mem_cons.mp hv with hvu | hvr
                · subst hvu
                  simp [entryOk, goodId, goodOrder, hid, ho, hm]
                  omega
                · exact hall v hvr
              · intro hall v hv
                exact hall v (List.mem_cons_of_mem u hv)
      · constructor
        · intro h
          exfalso
          simp [firstError, hid, hm] at h
        · intro hall
          exfalso
          have := hall u (by simp)
          simp [entryOk, goodId, hid, hm] at this

theorem firstError_some_cases (ids : List Nat) (us : List ReorderEntry)
    (e : ServiceError) (h : firstError ids us = some e) :
    e = .resourceNotFoundError "ITEM001" ∨ e = .validationError "ITEM002" := by
  induction us with
  | nil => simp [firstError] at h
  | cons u rest ih =>
    cases hid : u.id with
    | none =>
      simp [firstError, hid] at h
      exact Or.inl h.symm
    | some i =>
      by_cases hm : i ∈ ids
      · cases ho : u.order with
        | none =>
          simp [firstError, hid, hm, ho] at h
          exact Or.inr h.symm
        | some o =>
          by_cases h0 : o < 0
          · simp [firstError, hid, hm, ho, h0] at h
            exact Or.inr h.symm
          · by_cases h9 : 9 < o
            · simp [firstError, hid, hm, ho, h0, h9] at h
              exact Or.inr h.symm
            · exact ih ((firstError_cons_ok ids u rest i o hid hm ho h0 h9) ▸ h)
      · simp [firstError, hid, hm] at h
        exact Or.inl h.symm

theorem firstError_of_goodIds (ids : List Nat) (us : List ReorderEntry)
    (hids : ∀ u ∈ us, goodId ids u = true) (e : ServiceError)
    (h : firstError ids us = some e) : e = .validationError "ITEM002" := by
  induction us with
  | nil => simp [firstError] at h
  | cons u rest ih =>
    have hu := hids u (by simp)
    cases hid : u.id with
    | none => simp [goodId, hid] at hu
    | some i =>
      have hm : i ∈ ids := by simpa [goodId, hid] using hu
      cases ho : u.order with
      | none =>
        simp [firstError, hid, hm, ho] at h
        exact h.symm
      | some o =>
        by_cases h0 : o < 0
        · simp [firstError, hid, hm, ho, h0] at h
          exact h.symm
        · by_cases h9 : 9 < o
          · simp [firstError, hid, hm, ho, h0, h9] at h
            exact h.symm
          · exact ih (fun v hv => hids v (List.mem_cons_of_mem u hv))
              ((firstError_cons_ok ids u rest i o hid hm ho h0 h9) ▸ h)

theorem firstError_of_goodOrders (ids : List Nat) (us : List ReorderEntry)
    (hords : ∀ u ∈ us, goodOrder u = true) (e : ServiceError)
    (h : firstError ids us = some e) : e = .resourceNotFoundError "ITEM001" := by
  induction us with
  | nil => simp [firstError] at h
  | cons u rest ih =>
    have hu := hords u (by simp)
    cases hid : u.id with
    | none =>
      simp [firstError, hid] at h
      exact h.symm
    | some i =>
      by_cases hm : i ∈ ids
      · cases ho : u.order with
        | none => simp [goodOrder, ho] at hu
        | some o =>
          have hrange : 0 ≤ o ∧ o ≤ 9 := by simpa [goodOrder, ho] using hu
          have h0 : ¬ o < 0 := by omega
          have h9 : ¬ 9 < o := by omega
          exact ih (fun v hv => hords v (List.mem_cons_of_mem u hv))
            ((firstError_cons_ok ids u rest i o hid hm ho h0 h9) ▸ h)
      · simp [firstError, hid, hm] at h
        exact h.symm

/-! ### Reorder update loop -/

theorem updRow_id (now j : Nat) (o : Int) (r : BulletItem) :
    (updRow now j o r).id = r.id := by
  unfold updRow
  by_cases h : (r.id == j) = true <;> simp [h]

theorem findRow_map_updRow (db : List BulletItem) (now j : Nat) (o : Int)
    (i : Nat) :
    findRow (db.map (updRow now j o)) i = (findRow db i).map (updRow now j o) := by
  induction db with
  | nil => simp [findRow]
  | cons r rest ih =>
    by_cases h : (r.id == i) = true
    · simp [findRow, List.find?_cons, updRow_id, h]
    · simp only [findRow, List.map_cons, List.find?_cons, updRow_id, h] at *
      simpa [updRow_id, h] using ih

theorem order_after_applyUpdates (now : Nat) (us : List ReorderEntry)
    (db : List BulletItem) (i : Nat) :
    (findRow (applyUpdates now db us) i).map (fun r => r.order) =
      (findRow db i).map (fun r => lastOrd i us r.order) := by
  induction us generalizing db with
  | nil => simp [applyUpdates, lastOrd]
  | cons u rest ih =>
    have hfold : applyUpdates now db (u :: rest) =
        applyUpdates now (applyEntry now db u) rest := rfl
    rw [hfold, ih]
    cases hid : u.id with
    | none =>
      have : applyEntry now db u = db := by simp [applyEntry, hid]
      rw [this]
      cases findRow db i with
      | none => rfl
      | some r => simp [lastOrd, List.foldl_cons, hid]
    | some j =>
      cases ho : u.order with
      | none =>
        have : applyEntry now db u = db := by simp [applyEntry, hid, ho]
        rw [this]
        cases findRow db i with
        | none => rfl
        | some r => simp [lastOrd, List.foldl_cons, hid, ho]
      | some o =>
        have : applyEntry now db u = db.map (updRow now j o) := by
          simp [applyEntry, hid, ho]
        rw [this, findRow_map_updRow]
        cases hf : findRow db i with
        | none => rfl
        | some r =>
          have hri : r.id = i := by
            have hp := List.find?_some
              (show db.find? (fun x => x.id == i) = some r from hf)
            simpa using hp
          have hmain : (updRow now j o r).order =
              (if j = i then o else r.order) := by
            unfold updRow
            by_cases hji : j = i
            · simp [hji, hri]
            · have h1 : ¬ (r.id == j) = true := by
                simp [hri]
                exact fun h => hji h.symm
              simp [h1, hji]
          have hlast : lastOrd i (u :: rest) r.order =
              lastOrd i rest (if j = i then o else r.order) := by
            simp [lastOrd, List.foldl_cons, hid, ho]
          simp [hmain, hlast]

theorem lastEntryOrder_none_lastOrd (i : Nat) (us : List ReorderEntry)
    (h : lastEntryOrder i us = none) : ∀ d, lastOrd i us d = d := by
  induction us with
  | nil => intro d; rfl
  | cons u rest ih =>
    intro d
    cases hrest : lastEntryOrder i rest with
    | some o => simp [lastEntryOrder, hrest] at h
    | none =>
      cases hid : u.id with
      | none => simpa [lastOrd, List.foldl_cons, hid] using ih hrest _
      | some j =>
        cases ho : u.order with
        | none => simpa [lastOrd, List.foldl_cons, hid, ho] using ih hrest _
        | some o =>
          have hji : ¬ j = i := by
            intro hji
            simp [lastEntryOrder, hrest, hid, ho, hji] at h
          simpa [lastOrd, List.foldl_cons, hid, ho, hji] using ih hrest _

theorem lastEntryOrder_lastOrd (i : Nat) (us : List ReorderEntry) (o : Int)
    (h : lastEntryOrder i us = some o) : ∀ d, lastOrd i us d = o := by
  induction us with
  | nil => simp [lastEntryOrder] at h
  | cons u rest ih =>
    intro d
    cases hrest : lastEntryOrder i rest with
    | some o2 =>
      have ho2 : o2 = o := by simpa [lastEntryOrder, hrest] using h
      cases hid : u.id with
      | none => simpa [lastOrd, List.foldl_cons, hid] using ih (ho2 ▸ hrest) _
      | some j =>
        cases hord : u.order with
        | none => simpa [lastOrd, List.foldl_cons, hid, hord] using ih (ho2 ▸ hrest) _
        | some o3 => simpa [lastOrd, List.foldl_cons, hid, hord] using ih (ho2 ▸ hrest) _
    | none =>
      have htail := lastEntryOrder_none_lastOrd i rest hrest
      cases hid : u.id with
      | none => simp [lastEntryOrder, hrest, hid] at h
      | some j =>
        cases hord : u.order with
        | none => simp [lastEntryOrder, hrest, hid, hord] at h
        | some o3 =>
          by_cases hji : j = i
          · have : o3 = o := by simpa [lastEntryOrder, hrest, hid, hord, hji] using h
            simpa [lastOrd, List.foldl_cons, hid, hord, hji, this] using htail _
          · simp [lastEntryOrder, hrest, hid, hord, hji] at h

theorem lastEntryOrder_isSome (i : Nat) (us : List ReorderEntry)
    (u : ReorderEntry) (hu : u ∈ us) (hid : u.id = some i)
    (hords : ∀ v ∈ us, goodOrder v = true) :
    ∃ o, lastEntryOrder i us = some o := by
  induction us with
  | nil => exact absurd hu (List.not_mem_nil u)
  | cons v rest ih =>
    cases hrest : lastEntryOrder i rest with
    | some o => exact ⟨o, by simp [lastEntryOrder, hrest]⟩
    | none =>
      rcases List.mem_cons.mp hu with huv | hur
      · have hv := hords v (by simp)
        cases hvo : v.order with
        | none => simp [goodOrder, hvo] at hv
        | some o =>
          refine ⟨o, ?_⟩
          rw [← huv] at hvo ⊢
          simp [lastEntryOrder, hrest, hid, hvo]
      · rcases ih hur (fun w hw => hords w (List.mem_cons_of_mem v hw)) with ⟨o, ho⟩
        rw [hrest] at ho
        exact absurd ho (by simp)

theorem lastEntryOrder_mem (i : Nat) (us : List ReorderEntry) (o : Int)
    (h : lastEntryOrder i us = some o) :
    ∃ u ∈ us, u.id = some i ∧ u.order = some o := by
  induction us with
  | nil => simp [lastEntryOrder] at h
  | cons u rest ih =>
    cases hrest : lastEntryOrder i rest with
    | some o2 =>
      have : o2 = o := by simpa [lastEntryOrder, hrest] using h
      rcases ih (this ▸ hrest) with ⟨v, hv, hvi, hvo⟩
      exact ⟨v, List.mem_cons_of_mem u hv, hvi, hvo⟩
    | none =>
      cases hid : u.id with
      | none => simp [lastEntryOrder, hrest, hid] at h
      | some j =>
        cases hord : u.order with
        | none => simp [lastEntryOrder, hrest, hid, hord] at h
        | some o3 =>
          by_cases hji : j = i
          · have ho3 : o3 = o := by simpa [lastEntryOrder, hrest, hid, hord, hji] using h
            refine ⟨u, by simp, ?_, by rw [hord, ho3]⟩
            rw [hid, hji]
          · simp [lastEntryOrder, hrest, hid, hord, hji] at h

theorem lastEntryOrder_distinct (us : List ReorderEntry)
    (hnodup : (us.filterMap (fun u => u.order)).Nodup)
    (i j : Nat) (oi oj : Int) (hij : i ≠ j)
    (hi : lastEntryOrder i us = some oi) (hj : lastEntryOrder j us = some oj) :
    oi ≠ oj := by
  induction us with
  | nil => simp [lastEntryOrder] at hi
  | cons u rest ih =>
    have hnodup2 : (rest.filterMap (fun u => u.order)).Nodup := by
      cases huo : u.order with
      | none => simpa [List.filterMap_cons, huo] using hnodup
      | some o =>
        have := hnodup
        rw [List.filterMap_cons, huo] at this
        exact this.of_cons
    cases hiR : lastEntryOrder i rest with
    | some oi2 =>
      have hoi : oi2 = oi := by simpa [lastEntryOrder, hiR] using hi
      cases hjR : lastEntryOrder j rest with
      | some oj2 =>
        have hoj : oj2 = oj := by simpa [lastEntryOrder, hjR] using hj
        exact ih hnodup2 (hoi ▸ hiR) (hoj ▸ hjR)
      | none =>
        cases hid : u.id with
        | none => simp [lastEntryOrder, hjR, hid] at hj
        | some k =>
          cases hord : u.order with
          | none => simp [lastEntryOrder, hjR, hid, hord] at hj
          | some o3 =>
            by_cases hkj : k = j
            · have ho3 : o3 = oj := by
                simpa [lastEntryOrder, hjR, hid, hord, hkj] using hj
              have hmem : oi ∈ rest.filterMap (fun u => u.order) := by
                rcases lastEntryOrder_mem i rest oi (hoi ▸ hiR) with ⟨v, hv, _, hvo⟩
                exact List.mem_filterMap.mpr ⟨v, hv, hvo⟩
              have hnotin : o3 ∉ rest.filterMap (fun u => u.order) := by
                have := hnodup
                rw [List.filterMap_cons, hord] at this
                exact (List.nodup_cons.mp this).1
              intro hcontra
              rw [← ho3] at hcontra
              exact hnotin (hcontra ▸ hmem)
            · simp [lastEntryOrder, hjR, hid, hord, hkj] at hj
    | none =>
      cases hjR : lastEntryOrder j rest with
      | some oj2 =>
        have hoj : oj2 = oj := by simpa [lastEntryOrder, hjR] using hj
        cases hid : u.id with
        | none => simp [lastEntryOrder, hiR, hid] at hi
        | some k =>
          cases hord : u.order with
          | none => simp [lastEntryOrder, hiR, hid, hord] at hi
          | some o3 =>
            by_cases hki : k = i
            · have ho3 : o3 = oi := by
                simpa [lastEntryOrder, hiR, hid, hord, hki] using hi
              have hmem : oj ∈ rest.filterMap (fun u => u.order) := by
                rcases lastEntryOrder_mem j rest oj (hoj ▸ hjR) with ⟨v, hv, _, hvo⟩
                exact List.mem_filterMap.mpr ⟨v, hv, hvo⟩
              have hnotin : o3 ∉ rest.filterMap (fun u => u.order) := by
                have := hnodup
                rw [List.filterMap_cons, hord] at this
                exact (List.nodup_cons.mp this).1
              intro hcontra
              rw [← ho3] at hcontra
              exact hnotin (hcontra ▸ hmem)
            · simp [lastEntryOrder, hiR, hid, hord, hki] at hi
      | none =>
        cases hid : u.id with
        | none => simp [lastEntryOrder, hiR, hid] at hi
        | some k =>
          cases hord : u.order with
          | none => simp [lastEntryOrder, hiR, hid, hord] at hi
          | some o3 =>
            by_cases hki : k = i
            · by_cases hkj : k = j
              · exfalso
                exact hij (by rw [← hki, hkj])
              · simp [lastEntryOrder, hjR, hid, hord, hkj] at hj
            · simp [lastEntryOrder, hiR, hid, hord, hki] at hi

theorem findRow_isSome_of_activeId (db : List BulletItem) (spec_id i : Nat)
    (hmem : i ∈ activeIds db spec_id) :
    ∃ r, findRow db i = some r := by
  rcases List.mem_map.mp hmem with ⟨r, hr, hri⟩
  have hrdb : r ∈ db := (List.mem_filter.mp hr).1
  have : (findRow db i).isSome := by
    rw [findRow]
    exact List.find?_isSome.mpr ⟨r, hrdb, by simp [hri]⟩
  exact Option.isSome_iff_exists.mp this

/-- C4: `reorder_items` validates every payload entry before applying any
update.  Whenever some entry carries a bad id (absent, or not an active
item of the specification) or a bad order (absent, non-integer or outside
0 to 9), the call returns the table unchanged together with a typed
error; when every id is good the error is `ValidationError ITEM002`
(InvalidOrder), and when every order is good it is
`ResourceNotFoundError ITEM001` (NotFound). -/
theorem reorder_validates_before_any_write (db : List BulletItem)
    (now spec_id : Nat) (us : List ReorderEntry)
    (hbad : (∃ u ∈ us, goodId (activeIds db spec_id) u = false) ∨
            (∃ u ∈ us, goodOrder u = false)) :
    (reorder_items db now spec_id us).1 = db ∧
    (∃ e, (reorder_items db now spec_id us).2 = .error e ∧
      (e = .resourceNotFoundError "ITEM001" ∨ e = .validationError "ITEM002")) ∧
    ((∀ u ∈ us, goodId (activeIds db spec_id) u = true) →
      (reorder_items db now spec_id us).2 = .error (.validationError "ITEM002")) ∧
    ((∀ u ∈ us, goodOrder u = true) →
      (reorder_items db now spec_id us).2 = .error (.resourceNotFoundError "ITEM001")) := by
  have hne : firstError (activeIds db spec_id) us ≠ none := by
    intro hnone
    have hall := (firstError_none_iff _ _).mp hnone
    rcases hbad with ⟨u, hu, hb⟩ | ⟨u, hu, hb⟩
    · have hok := hall u hu
      simp [entryOk] at hok
      rw [hb] at hok
      exact absurd hok.1 (by simp)
    · have hok := hall u hu
      simp [entryOk] at hok
      rw [hb] at hok
      exact absurd hok.2 (by simp)
  cases hF : firstError (activeIds db spec_id) us with
  | none => exact absurd hF hne
  | some e =>
    refine ⟨by simp [reorder_items, hF], ⟨e, by simp [reorder_items, hF],
      firstError_some_cases _ _ _ hF⟩, ?_, ?_⟩
    · intro hids
      have he := firstError_of_goodIds _ _ hids e hF
      simp [reorder_items, hF, he]
    · intro hords
      have he := firstError_of_goodOrders _ _ hords e hF
      simp [reorder_items, hF, he]

/-- Witness for C4: an in-range payload entry naming an active item,
followed by an entry with an out-of-range order. -/
theorem reorder_validates_before_any_write_witness :
    (reorder_items [⟨1, 5, "a", 0, 0, 0, false⟩] 100 5
      [⟨some 1, some 11⟩]).1 = [⟨1, 5, "a", 0, 0, 0, false⟩] ∧
    (reorder_items [⟨1, 5, "a", 0, 0, 0, false⟩] 100 5
      [⟨some 1, some 11⟩]).2 = .error (.validationError "ITEM002") :=
  ⟨(reorder_validates_before_any_write [⟨1, 5, "a", 0, 0, 0, false⟩] 100 5
      [⟨some 1, some 11⟩] (by decide)).1,
   (reorder_validates_before_any_write [⟨1, 5, "a", 0, 0, 0, false⟩] 100 5
      [⟨some 1, some 11⟩] (by decide)).2.2.1 (by decide)⟩

/-- C3 counterexample: a reorder payload in which two entries carry the
same order value 0 does not fail with `InvalidOrder`; both writes are
applied and the call succeeds. -/
theorem reorder_duplicate_order_accepted :
    reorder_items [⟨1, 5, "a", 0, 0, 0, false⟩, ⟨2, 5, "b", 1, 0, 0, false⟩]
      100 5 [⟨some 1, some 0⟩, ⟨some 2, some 0⟩] =
      ([⟨1, 5, "a", 0, 0, 100, false⟩, ⟨2, 5, "b", 0, 0, 100, false⟩],
       .ok [⟨1, 5, "a", 0, 0, 100, false⟩, ⟨2, 5, "b", 0, 0, 100, false⟩]) ∧
    ([⟨1, 5, "a", 0, 0, 100, false⟩, ⟨2, 5, "b", 0, 0, 100, false⟩] : List BulletItem) ≠
      [⟨1, 5, "a", 0, 0, 0, false⟩, ⟨2, 5, "b", 1, 0, 0, false⟩] := by
  decide

/-- C3 (amended): duplicate order values inside one payload are accepted,
but after a reorder whose supplied order values are pairwise distinct, no
two distinct items named by the payload share an order value. -/
theorem reorder_selfconsistent_orders_distinct (db : List BulletItem)
    (now spec_id : Nat) (us : List ReorderEntry)
    (_hwf : WellFormed db)
    (hnodup : (us.filterMap (fun u => u.order)).Nodup)
    (db2 : List BulletItem) (out : List BulletItem)
    (hok : reorder_items db now spec_id us = (db2, .ok out))
    (u : ReorderEntry) (hu : u ∈ us) (v : ReorderEntry) (hv : v ∈ us)
    (i j : Nat) (hui : u.id = some i) (hvj : v.id = some j) (hij : i ≠ j) :
    ∃ oi oj, (findRow db2 i).map (fun r => r.order) = some oi ∧
             (findRow db2 j).map (fun r => r.order) = some oj ∧ oi ≠ oj := by
  cases hF : firstError (activeIds db spec_id) us with
  | some e =>
    exfalso
    simp [reorder_items, hF, Prod.ext_iff] at hok
  | none =>
    have hdb2 : applyUpdates now db us = db2 := by
      have h1 := congrArg Prod.fst hok
      simpa [reorder_items, hF] using h1
    have hall := (firstError_none_iff _ _).mp hF
    have hidsAll : ∀ w ∈ us, goodId (activeIds db spec_id) w = true := by
      intro w hw
      have := hall w hw
      simp [entryOk] at this
      exact this.1
    have hordsAll : ∀ w ∈ us, goodOrder w = true := by
      intro w hw
      have := hall w hw
      simp [entryOk] at this
      exact this.2
    obtain ⟨oi, hoi⟩ := lastEntryOrder_isSome i us u hu hui hordsAll
    obtain ⟨oj, hoj⟩ := lastEntryOrder_isSome j us v hv hvj hordsAll
    have hmi : i ∈ activeIds db spec_id := by
      have := hidsAll u hu
      simpa [goodId, hui] using this
    have hmj : j ∈ activeIds db spec_id := by
      have := hidsAll v hv
      simpa [goodId, hvj] using this
    obtain ⟨ri, hri⟩ := findRow_isSome_of_activeId db spec_id i hmi
    obtain ⟨rj, hrj⟩ := findRow_isSome_of_activeId db spec_id j hmj
    refine ⟨oi, oj, ?_, ?_, lastEntryOrder_distinct us hnodup i j oi oj hij hoi hoj⟩
    · rw [← hdb2, order_after_applyUpdates, hri]
      simp [lastEntryOrder_lastOrd i us oi hoi]
    · rw [← hdb2, order_after_applyUpdates, hrj]
      simp [lastEntryOrder_lastOrd j us oj hoj]

/-- Witness for the amended C3: two items, reordered with the pairwise
distinct orders 1 and 0; the final orders of the two items differ. -/
theorem reorder_selfconsistent_orders_distinct_witness :
    ∃ oi oj,
      (findRow [⟨1, 5, "a", 1, 0, 100, false⟩, ⟨2, 5, "b", 0, 0, 100, false⟩] 1).map
        (fun r => r.order) = some oi ∧
      (findRow [⟨1, 5, "a", 1, 0, 100, false⟩, ⟨2, 5, "b", 0, 0, 100, false⟩] 2).map
        (fun r => r.order) = some oj ∧ oi ≠ oj :=
  reorder_selfconsistent_orders_distinct
    [⟨1, 5, "a", 0, 0, 0, false⟩, ⟨2, 5, "b", 1, 0, 0, false⟩] 100 5
    [⟨some 1, some 1⟩, ⟨some 2, some 0⟩] (by decide) (by decide)
    [⟨1, 5, "a", 1, 0, 100, false⟩, ⟨2, 5, "b", 0, 0, 100, false⟩]
    [⟨1, 5, "a", 1, 0, 100, false⟩, ⟨2, 5, "b", 0, 0, 100, false⟩] (by decide)
    ⟨some 1, some 1⟩ (by decide) ⟨some 2, some 0⟩ (by decide)
    1 2 (by decide) (by decide) (by decide)

/-- C5 counterexample: with one active item under the specification,
`reorder_items` on the empty payload returns the empty list, not the
current active item list. -/
theorem reorder_empty_returns_empty :
    reorder_items [⟨1, 5, "a", 0, 0, 0, false⟩] 100 5 [] =
      ([⟨1, 5, "a", 0, 0, 0, false⟩], .ok []) ∧
    list_specification_items [⟨1, 5, "a", 0, 0, 0, false⟩] 5 =
      [⟨1, 5, "a", 0, 0, 0, false⟩] ∧
    ([] : List BulletItem) ≠ [⟨1, 5, "a", 0, 0, 0, false⟩] := by
  decide

/-- C5 (amended): `reorder_items` on the empty payload modifies no bullet
item and returns the empty list (the serialized `updated_items`, which no
entry ever joins), not the current item list. -/
theorem reorder_empty_noop (db : List BulletItem) (now spec_id : Nat) :
    reorder_items db now spec_id [] = (db, .ok []) := rfl

/-- C10: a payload naming the same item several times is accepted as long
as every entry passes validation on its own, the validated payload is
applied in payload order, and each named item ends with the order of the
last payload entry naming it. -/
theorem reorder_duplicate_ids_last_entry_wins (db : List BulletItem)
    (now spec_id : Nat) (us : List ReorderEntry) (_hwf : WellFormed db)
    (hvalid : ∀ u ∈ us, entryOk (activeIds db spec_id) u = true) :
    (∃ out, reorder_items db now spec_id us = (applyUpdates now db us, .ok out)) ∧
    (∀ i oi, lastEntryOrder i us = some oi →
      (findRow (applyUpdates now db us) i).map (fun r => r.order) = some oi) := by
  have hF : firstError (activeIds db spec_id) us = none :=
    (firstError_none_iff _ _).mpr hvalid
  constructor
  · refine ⟨us.filterMap (fun u => u.id.bind (findRow (applyUpdates now db us))), ?_⟩
    simp [reorder_items, hF]
  · intro i oi hlast
    obtain ⟨u, hu, hui, -⟩ := lastEntryOrder_mem i us oi hlast
    have hmi : i ∈ activeIds db spec_id := by
      have := hvalid u hu
      simp [entryOk] at this
      have hgid := this.1
      simpa [goodId, hui] using hgid
    obtain ⟨ri, hri⟩ := findRow_isSome_of_activeId db spec_id i hmi
    rw [order_after_applyUpdates, hri]
    simp [lastEntryOrder_lastOrd i us oi hlast]

/-- Witness for C10: the payload names item 1 twice, with orders 3 then 7;
the call succeeds and the item ends with order 7. -/
theorem reorder_duplicate_ids_last_entry_wins_witness :
    (∃ out, reorder_items [⟨1, 5, "a", 0, 0, 0, false⟩] 100 5
      [⟨some 1, some 3⟩, ⟨some 1, some 7⟩] =
      (applyUpdates 100 [⟨1, 5, "a", 0, 0, 0, false⟩]
        [⟨some 1, some 3⟩, ⟨some 1, some 7⟩], .ok out)) ∧
    (findRow (applyUpdates 100 [⟨1, 5, "a", 0, 0, 0, false⟩]
      [⟨some 1, some 3⟩, ⟨some 1, some 7⟩]) 1).map (fun r => r.order) = some 7 :=
  ⟨(reorder_duplicate_ids_last_entry_wins [⟨1, 5, "a", 0, 0, 0, false⟩] 100 5
      [⟨some 1, some 3⟩, ⟨some 1, some 7⟩] (by decide) (by decide)).1,
   (reorder_duplicate_ids_last_entry_wins [⟨1, 5, "a", 0, 0, 0, false⟩] 100 5
      [⟨some 1, some 3⟩, ⟨some 1, some 7⟩] (by decide) (by decide)).2 1 7 (by decide)⟩

/-- C2: a create against a specification that already has exactly 10
active bullet items fails with the capacity error (`ValidationError
ITEM001`, the `CapacityExceeded` of the specification) and the table is
returned unchanged: no record is created and no field of any sibling is
modified. -/
theorem create_on_full_specification_fails (db : List BulletItem)
    (now newId : Nat) (d : CreateData)
    (hvalid : loadCreateSchema d = none)
    (hfull : (list_records db d.spec_id).length = 10) :
    create_bullet_item db now newId d = (db, .error (.validationError "ITEM001")) := by
  simp [create_bullet_item, hvalid, hfull]

/-- Witness for C2: ten active items under specification 5, one active
item of another specification, and a schema-valid request for an 11th. -/
theorem create_on_full_specification_fails_witness :
    loadCreateSchema { spec_id := 5, content := "k", order := 0 } = none ∧
    (list_records
      [⟨1, 5, "a", 0, 0, 0, false⟩, ⟨2, 5, "b", 1, 0, 0, false⟩,
       ⟨3, 5, "c", 2, 0, 0, false⟩, ⟨4, 5, "d", 3, 0, 0, false⟩,
       ⟨5, 5, "e", 4, 0, 0, false⟩, ⟨6, 5, "f", 5, 0, 0, false⟩,
       ⟨7, 5, "g", 6, 0, 0, false⟩, ⟨8, 5, "h", 7, 0, 0, false⟩,
       ⟨9, 5, "i", 8, 0, 0, false⟩, ⟨10, 5, "j", 9, 0, 0, false⟩,
       ⟨11, 6, "z", 0, 0, 0, false⟩] 5).length = 10 ∧
    create_bullet_item
      [⟨1, 5, "a", 0, 0, 0, false⟩, ⟨2, 5, "b", 1, 0, 0, false⟩,
       ⟨3, 5, "c", 2, 0, 0, false⟩, ⟨4, 5, "d", 3, 0, 0, false⟩,
       ⟨5, 5, "e", 4, 0, 0, false⟩, ⟨6, 5, "f", 5, 0, 0, false⟩,
       ⟨7, 5, "g", 6, 0, 0, false⟩, ⟨8, 5, "h", 7, 0, 0, false⟩,
       ⟨9, 5, "i", 8, 0, 0, false⟩, ⟨10, 5, "j", 9, 0, 0, false⟩,
       ⟨11, 6, "z", 0, 0, 0, false⟩] 99 12 { spec_id := 5, content := "k", order := 0 } =
      ([⟨1, 5, "a", 0, 0, 0, false⟩, ⟨2, 5, "b", 1, 0, 0, false⟩,
       ⟨3, 5, "c", 2, 0, 0, false⟩, ⟨4, 5, "d", 3, 0, 0, false⟩,
       ⟨5, 5, "e", 4, 0, 0, false⟩, ⟨6, 5, "f", 5, 0, 0, false⟩,
       ⟨7, 5, "g", 6, 0, 0, false⟩, ⟨8, 5, "h", 7, 0, 0, false⟩,
       ⟨9, 5, "i", 8, 0, 0, false⟩, ⟨10, 5, "j", 9, 0, 0, false⟩,
       ⟨11, 6, "z", 0, 0, 0, false⟩], .error (.validationError "ITEM001")) :=
  ⟨by decide, by decide,
   create_on_full_specification_fails _ 99 12 _ (by decide) (by decide)⟩

/-! ### Soft delete of bullet items (C6) -/

theorem get_record_props (db : List BulletItem) (i : Nat) (r : BulletItem)
    (h : get_record db i = some r) :
    r.id = i ∧ r.is_deleted = false ∧ r ∈ db := by
  have hp := List.find?_some
    (show db.find? (fun x => x.id == i && !x.is_deleted) = some r from h)
  have hm := List.mem_of_find?_eq_some
    (show db.find? (fun x => x.id == i && !x.is_deleted) = some r from h)
  simp at hp
  exact ⟨hp.1, hp.2, hm⟩

theorem findRow_of_get_record (db : List BulletItem) (i : Nat) (r : BulletItem)
    (hwf : WellFormed db) (h : get_record db i = some r) :
    findRow db i = some r := by
  induction db with
  | nil => simp [get_record] at h
  | cons x rest ih =>
    by_cases hxi : (x.id == i) = true
    · by_cases hdel : x.is_deleted = true
      · exfalso
        have hx : (x.id == i && !x.is_deleted) = false := by simp [hdel]
        have hrest : get_record rest i = some r := by
          simpa [get_record, List.find?_cons, hx] using h
        obtain ⟨hrid, -, hrmem⟩ := get_record_props rest i r hrest
        have hwf2 := hwf
        unfold WellFormed at hwf2
        rw [List.map_cons, List.nodup_cons] at hwf2
        apply hwf2.1
        have : x.id = i := by simpa using hxi
        rw [this, ← hrid]
        exact List.mem_map.mpr ⟨r, hrmem, rfl⟩
      · have hx : (x.id == i && !x.is_deleted) = true := by simp [hxi, hdel]
        have hxr : x = r := by
          have := h
          simp [get_record, List.find?_cons, hx] at this
          exact this
        subst hxr
        simp [findRow, List.find?_cons, hxi]
    · have hx : (x.id == i && !x.is_deleted) = false := by simp [hxi]
      have hrest : get_record rest i = some r := by
        simpa [get_record, List.find?_cons, hx] using h
      have hwf2 : WellFormed rest := by
        unfold WellFormed at hwf ⊢
        rw [List.map_cons, List.nodup_cons] at hwf
        exact hwf.2
      have := ih hwf2 hrest
      simpa [findRow, List.find?_cons, hxi] using this

theorem findRow_map_idpreserving (g : BulletItem → BulletItem)
    (hg : ∀ r, (g r).id = r.id) (db : List BulletItem) (j : Nat) :
    findRow (db.map g) j = (findRow db j).map g := by
  induction db with
  | nil => simp [findRow]
  | cons x rest ih =>
    by_cases hxj : (x.id == j) = true
    · simp [findRow, List.find?_cons, hg, hxj]
    · simp only [List.map_cons, findRow, List.find?_cons, hg, hxj] at *
      simpa [hg, hxj] using ih

theorem findRow_soft_delete (db : List BulletItem) (now i j : Nat) :
    findRow (soft_delete db now i) j =
      (findRow db j).map
        (fun r => if r.id == i then { r with is_deleted := true, updated_at := now } else r) :=
  findRow_map_idpreserving _
    (fun r => by by_cases h : (r.id == i) = true <;> simp [h]) db j

theorem mem_insertByOrder (x a : BulletItem) (l : List BulletItem) :
    x ∈ insertByOrder a l ↔ x = a ∨ x ∈ l := by
  induction l with
  | nil => simp [insertByOrder]
  | cons y ys ih =>
    by_cases h : a.order ≤ y.order
    · simp [insertByOrder, h]
    · simp [insertByOrder, h, ih]
      tauto

theorem mem_sortByOrder (x : BulletItem) (l : List BulletItem) :
    x ∈ sortByOrder l ↔ x ∈ l := by
  induction l with
  | nil => simp [sortByOrder]
  | cons y ys ih => simp [sortByOrder, mem_insertByOrder, ih]

/-- Everything C6 asserts about one delete: the service call succeeds and
rewrites the table by the soft delete alone; the row of the deleted item
keeps its id, spec_id, content and order, with only `is_deleted` set and
`updated_at` restamped; the item no longer appears in the listing of its
specification; its row is still present in storage; every other row is
untouched. -/
def deletePost (db : List BulletItem) (now item_id : Nat) (r : BulletItem) : Prop :=
  delete_bullet_item db now item_id = (soft_delete db now r.id, .ok ()) ∧
  findRow (soft_delete db now r.id) r.id =
    some { r with is_deleted := true, updated_at := now } ∧
  (∀ x ∈ list_specification_items (soft_delete db now r.id) r.spec_id, x.id ≠ r.id) ∧
  ({ r with is_deleted := true, updated_at := now }) ∈ soft_delete db now r.id ∧
  (∀ x ∈ db, x.id ≠ r.id → x ∈ soft_delete db now r.id)

/-- C6: deleting an active bullet item soft-deletes exactly that row:
`is_deleted` becomes true, `updated_at` is restamped, all other columns
and rows are unchanged, the item disappears from
`list_specification_items` but its row, historical order included, stays
in storage. -/
theorem delete_soft_deletes_and_hides (db : List BulletItem)
    (now item_id : Nat) (r : BulletItem) (hwf : WellFormed db)
    (hget : get_record db item_id = some r) :
    deletePost db now item_id r := by
  obtain ⟨hrid, hrdel, hrmem⟩ := get_record_props db item_id r hget
  have hfind : findRow db r.id = some r := by
    rw [hrid]
    exact findRow_of_get_record db item_id r hwf hget
  refine ⟨by simp [delete_bullet_item, hget], ?_, ?_, ?_, ?_⟩
  · rw [findRow_soft_delete, hfind]
    simp
  · intro x hx
    have hxrec : x ∈ list_records (soft_delete db now r.id) r.spec_id := by
      have := hx
      unfold list_specification_items at this
      exact (mem_sortByOrder _ _).mp this
    have hxactive : x.is_deleted = false := by
      have := (List.mem_filter.mp hxrec).2
      simp at this
      exact this.1
    obtain ⟨y, hy, hxy⟩ := List.mem_map.mp (List.mem_filter.mp hxrec).1
    by_cases hyi : (y.id == r.id) = true
    · exfalso
      rw [← hxy] at hxactive
      simp [hyi] at hxactive
    · intro hxid
      rw [← hxy] at hxid
      simp [hyi] at hxid
      exact absurd (by simpa using hxid) (by simpa using hyi)
  · refine List.mem_map.mpr ⟨r, hrmem, ?_⟩
    simp
  · intro x hx hxid
    refine List.mem_map.mpr ⟨x, hx, ?_⟩
    have : ¬ (x.id == r.id) = true := by simpa using hxid
    simp [this]

/-- Witness for C6: a two-item table; deleting item 1 leaves item 2 alone
and keeps the deleted row in storage. -/
theorem delete_soft_deletes_and_hides_witness :
    deletePost [⟨1, 5, "a", 0, 0, 0, false⟩, ⟨2, 5, "b", 1, 0, 0, false⟩]
      100 1 ⟨1, 5, "a", 0, 0, 0, false⟩ :=
  delete_soft_deletes_and_hides
    [⟨1, 5, "a", 0, 0, 0, false⟩, ⟨2, 5, "b", 1, 0, 0, false⟩]
    100 1 ⟨1, 5, "a", 0, 0, 0, false⟩ (by decide) (by decide)

/-! ### Deleting a specification (C7) -/

/-- C7 fails on the code: `delete_specification` soft-deletes only the
specification row and never touches the `bullet_items` table, so an
active bullet item of the deleted specification stays active.  The first
conjunct shows the bullet-item table is returned untouched on every
input; the remaining conjuncts evaluate the failing input: a
specification with one active item is deleted successfully, yet its item
is still listed as active afterwards. -/
theorem delete_specification_leaves_items_active :
    (∀ (sdb : List Specification) (idb : List BulletItem) (now spec_id : Nat),
      ((delete_specification sdb idb now spec_id).1).2 = idb) ∧
    delete_specification [⟨5, 1, "s", 0, 0, false⟩] [⟨1, 5, "a", 0, 0, 0, false⟩]
      100 5 =
      (([⟨5, 1, "s", 0, 100, true⟩], [⟨1, 5, "a", 0, 0, 0, false⟩]), .ok ()) ∧
    list_records [⟨1, 5, "a", 0, 0, 0, false⟩] 5 = [⟨1, 5, "a", 0, 0, 0, false⟩] := by
  refine ⟨?_, by decide, by decide⟩
  intro sdb idb now spec_id
  unfold delete_specification
  cases get_record_specification sdb spec_id <;> rfl

/-! ### Cache-aside reads (C8, C9) -/

/-- C8: `get_project` re-derives the ownership decision on every cache
hit from the `user_id` of the cached payload, denies a mismatched
requester with `AuthorizationError PRJ002` on both the cache path and the
store path, only ever returns a payload whose `user_id` equals the
requester, and, when the cache holds the dump of the stored project,
answers exactly as it would have from the store alone. -/
theorem get_project_ownership (cache : CacheOf ProjDict) (db : List Project)
    (project_id user_id : Nat) :
    (∀ d, cache.get project_id = .hit d → d.user_id ≠ user_id →
      get_project cache db project_id user_id = .error (.authorizationError "PRJ002")) ∧
    (∀ p, cache.get project_id = .miss → get_record_project db project_id = some p →
      p.user_id ≠ user_id →
      get_project cache db project_id user_id = .error (.authorizationError "PRJ002")) ∧
    (∀ d, get_project cache db project_id user_id = .ok d → d.user_id = user_id) ∧
    (∀ p, cache.get project_id = .hit (dumpProject p) →
      get_record_project db project_id = some p →
      get_project cache db project_id user_id =
        get_project ⟨fun _ => .miss, true⟩ db project_id user_id) := by
  refine ⟨?_, ?_, ?_, ?_⟩
  · intro d hhit hne
    simp [get_project, hhit, hne]
  · intro p hmiss hrec hne
    have : ¬ (p.validate_ownership user_id) = true := by
      simpa [Project.validate_ownership] using hne
    simp [get_project, hmiss, hrec, this]
  · intro d hok
    cases hc : cache.get project_id with
    | failure => simp [get_project, hc] at hok
    | hit d0 =>
      by_cases hne : d0.user_id ≠ user_id
      · simp [get_project, hc, hne] at hok
      · have hd : d0 = d := by
          simpa [get_project, hc, hne] using hok
        rw [← hd]
        exact Decidable.not_not.mp hne
    | miss =>
      cases hrec : get_record_project db project_id with
      | none => simp [get_project, hc, hrec] at hok
      | some p =>
        by_cases hown : (p.validate_ownership user_id) = true
        · by_cases hset : cache.setOk = true
          · have hd : dumpProject p = d := by
              simpa [get_project, hc, hrec, hown, hset] using hok
            rw [← hd]
            simpa [dumpProject, Project.validate_ownership] using hown
          · simp [get_project, hc, hrec, hown, hset] at hok
        · simp [get_project, hc, hrec, hown] at hok
  · intro p hhit hrec
    by_cases hown : p.user_id = user_id
    · have h1 : ¬ (dumpProject p).user_id ≠ user_id := by
        simp [dumpProject, hown]
      have h2 : (p.validate_ownership user_id) = true := by
        simp [Project.validate_ownership, hown]
      simp [get_project, hhit, hrec, h1, h2, dumpProject, hown]
    · have h1 : (dumpProject p).user_id ≠ user_id := by
        simp [dumpProject, hown]
      have h2 : ¬ (p.validate_ownership user_id) = true := by
        simp [Project.validate_ownership, hown]
      simp [get_project, hhit, hrec, h1, h2]

/-- Witness for C8: a cached project owned by user 2, requested by user
3 on a cache hit, is denied. -/
theorem get_project_ownership_witness :
    get_project ⟨fun _ => .hit ⟨7, 2, "t"⟩, true⟩ [] 7 3 =
      .error (.authorizationError "PRJ002") :=
  (get_project_ownership ⟨fun _ => .hit ⟨7, 2, "t"⟩, true⟩ [] 7 3).1
    ⟨7, 2, "t"⟩ rfl (by decide)

/-- C9 fails on the code: with the cache backend failing and the store
holding the project, owned by the requester, the read does not degrade to
the store; it surfaces the cache failure as `DatabaseError`. -/
theorem cache_failure_fails_project_read :
    get_project ⟨fun _ => .failure, true⟩ [⟨7, 3, "t", 0, 0, false⟩] 7 3 =
      .error .databaseError ∧
    get_record_project [⟨7, 3, "t", 0, 0, false⟩] 7 =
      some ⟨7, 3, "t", 0, 0, false⟩ := ⟨rfl, rfl⟩

/-- C9 (amended): a cache backend failure during a project or
specification read surfaces as `DatabaseError` and fails the request;
there is no fallback to the record store. -/
theorem cache_failure_raises_database_error
    (pcache : CacheOf ProjDict) (scache : CacheOf SpecDict)
    (pdb : List Project) (sdb : List Specification)
    (project_id user_id spec_id : Nat)
    (hp : pcache.get project_id = .failure)
    (hs : scache.get spec_id = .failure) :
    get_project pcache pdb project_id user_id = .error .databaseError ∧
    get_specification scache sdb spec_id = .error .databaseError := by
  exact ⟨by simp [get_project, hp], by simp [get_specification, hs]⟩

/-- Witness for the amended C9 at a concrete failing cache. -/
theorem cache_failure_raises_database_error_witness :
    get_project ⟨fun _ => .failure, true⟩ ([] : List Project) 8 3 =
      .error .databaseError ∧
    get_specification ⟨fun _ => .failure, true⟩ ([] : List Specification) 9 =
      .error .databaseError :=
  cache_failure_raises_database_error
    ⟨fun _ => .failure, true⟩ ⟨fun _ => .failure, true⟩ [] [] 8 3 9 rfl rfl
